import Mathlib

/-!
Verification of the particle-filter core of openalpr/imageclipper
(opencvx headers `cvrectpoints.h`, `cvparticlestaterect.h`,
`cvparticleobservepcadiffs.h` together with the template-matching
observation variant, and `cvpointrecttest.h`).

Shallow embedding conventions:
* A `CvMat` of doubles (`CV_64FC1`) is embedded as a total function
  `ℕ → ℕ → ℚ` (state values: doubles are stored and read back exactly by
  `cvmSet`/`cvmGet`, so exact rationals model them faithfully), or
  `ℕ → ℕ → ℝ` for the log-likelihood vector, whose values involve a
  square root.  `cvmSet` is pointwise function update, `cvmGet` is
  application.
* Loops that write matrix cells in place become structural recursions on
  the loop counter, each step applying the loop body to the matrix
  produced by the previous iterations.
* External collaborators (image resize, crop, matrix load, trigonometry
  on degrees) are passed as function parameters; repository helpers that
  are not part of the four core headers (`cvrect32f.h`,
  `cvcreateaffine.h`, `cvgaussnorm.h`) are modelled from the spec and
  marked as such in their doc comments.
-/

namespace ImageClipper

/-- `cvmSet` on a matrix embedded as a total function: write value `v` at
row `r`, column `c`. -/
def cvmSet {α : Type} (m : ℕ → ℕ → α) (r c : ℕ) (v : α) : ℕ → ℕ → α :=
  fun i j => if i = r ∧ j = c then v else m i j

/-- `cvmGet`: read the cell at row `r`, column `c`. -/
def cvmGet {α : Type} (m : ℕ → ℕ → α) (r c : ℕ) : α := m r c

/-- The particle ensemble (`CvParticle`, consumed by the state and
observation code): the particle count, the `num_states × num_particles`
state matrix `particles` and the `1 × num_particles` log-likelihood
vector `probs`. -/
structure CvParticle where
  num_particles : ℕ
  particles : ℕ → ℕ → ℚ
  probs : ℕ → ℕ → ℝ

/-- The `CvParticleState` struct of `cvparticlestaterect.h`: one tracking
hypothesis `{x, y, width, height, angle}`, all doubles. -/
structure CvParticleState where
  x : ℚ
  y : ℚ
  width : ℚ
  height : ℚ
  angle : ℚ
deriving DecidableEq

/-- `cvParticleStateGet` from `cvparticlestaterect.h`: read rows 0..4 of
column `p_id` of the state matrix. -/
def cvParticleStateGet (p : CvParticle) (p_id : ℕ) : CvParticleState :=
  { x := cvmGet p.particles 0 p_id
    y := cvmGet p.particles 1 p_id
    width := cvmGet p.particles 2 p_id
    height := cvmGet p.particles 3 p_id
    angle := cvmGet p.particles 4 p_id }

/-- `cvParticleStateSet` from `cvparticlestaterect.h`: write the five
state fields into rows 0..4 of column `p_id` of the state matrix. -/
def cvParticleStateSet (p : CvParticle) (p_id : ℕ) (state : CvParticleState) :
    CvParticle :=
  { p with particles :=
      cvmSet (cvmSet (cvmSet (cvmSet (cvmSet p.particles
        0 p_id state.x) 1 p_id state.y) 2 p_id state.width)
        3 p_id state.height) 4 p_id state.angle }

/-- The global `dynamics` array of `cvparticlestaterect.h` (row-major
5 × 5 matrix of doubles). -/
def dynamics : List ℚ :=
  [2, 0, 0, 0, 0,
   0, 2, 0, 0, 0,
   0, 0, 2, 0, 0,
   0, 0, 0, 2, 0,
   0, 0, 0, 0, 2]

/-- The three configured matrices produced by `cvParticleStateConfig` and
handed to the particle-filter engine via `cvParticleSetDynamics`,
`cvParticleSetNoise` and `cvParticleSetBound`. -/
structure CvParticleConfig where
  dynamicsM : Fin 5 → Fin 5 → ℚ
  stdM : Fin 5 → ℚ
  boundM : Fin 5 → Fin 3 → ℚ

/-- The `boundarr` literal built inside `cvParticleStateConfig` (row-major
5 × 3 matrix of doubles; the `false`/`true` circular flags are stored as
the doubles 0/1).  `imsize.width - 1` and `imsize.height - 1` are computed
in integer arithmetic before conversion. -/
def boundarr (imW imH : ℤ) : List ℚ :=
  [0, ((imW - 1 : ℤ) : ℚ), 0,
   0, ((imH - 1 : ℤ) : ℚ), 0,
   1, (imW : ℚ), 0,
   1, (imH : ℚ), 0,
   0, 360, 1]

/-- The `stdarr` literal built inside `cvParticleStateConfig`: the
caller-supplied per-dimension noise standard deviations. -/
def stdarr (std : CvParticleState) : List ℚ :=
  [std.x, std.y, std.width, std.height, std.angle]

/-- `cvParticleStateConfig` from `cvparticlestaterect.h`: package the
dynamics matrix (from the global `dynamics` array), the noise
standard-deviation vector and the bound table.  The RNG seeding is an
external side effect with no influence on these three matrices. -/
def cvParticleStateConfig (imW imH : ℤ) (std : CvParticleState) :
    CvParticleConfig :=
  { dynamicsM := fun i j => dynamics.getD (5 * i.val + j.val) 0
    stdM := fun i => (stdarr std).getD i.val 0
    boundM := fun i j => (boundarr imW imH).getD (3 * i.val + j.val) 0 }

/-- C2: setting a particle state at index `i` and then getting index `i`
returns exactly the state that was set; all five fields round-trip with
no loss (doubles in, doubles out). -/
theorem stateSet_stateGet_roundtrip (p : CvParticle) (i : ℕ)
    (s : CvParticleState) :
    cvParticleStateGet (cvParticleStateSet p i s) i = s := by
  simp [cvParticleStateGet, cvParticleStateSet, cvmGet, cvmSet]

/-- C5: the dynamics matrix handed to the engine by
`cvParticleStateConfig` is the 5 × 5 matrix with every diagonal entry 2
and every off-diagonal entry 0: each state dimension propagates as
`new = 2 × current` with no cross-dimension coupling. -/
theorem config_dynamics_diagonal (imW imH : ℤ) (std : CvParticleState)
    (i j : Fin 5) :
    (cvParticleStateConfig imW imH std).dynamicsM i j =
      if i = j then 2 else 0 := by
  fin_cases i <;> fin_cases j <;> rfl

/-- C4: for image sizes at least 2 × 2 the bound table built by
`cvParticleStateConfig` has rows x: {0, imageWidth−1, non-circular},
y: {0, imageHeight−1, non-circular}, width: {1, imageWidth, non-circular},
height: {1, imageHeight, non-circular}, angle: {0, 360, circular}, and in
no row is the lower bound equal to the upper bound (every dimension's
bound is active). -/
theorem config_bound_table (imW imH : ℤ) (std : CvParticleState)
    (hW : 2 ≤ imW) (hH : 2 ≤ imH) :
    ((cvParticleStateConfig imW imH std).boundM 0 0 = 0 ∧
      (cvParticleStateConfig imW imH std).boundM 0 1 = ((imW - 1 : ℤ) : ℚ) ∧
      (cvParticleStateConfig imW imH std).boundM 0 2 = 0) ∧
    ((cvParticleStateConfig imW imH std).boundM 1 0 = 0 ∧
      (cvParticleStateConfig imW imH std).boundM 1 1 = ((imH - 1 : ℤ) : ℚ) ∧
      (cvParticleStateConfig imW imH std).boundM 1 2 = 0) ∧
    ((cvParticleStateConfig imW imH std).boundM 2 0 = 1 ∧
      (cvParticleStateConfig imW imH std).boundM 2 1 = (imW : ℚ) ∧
      (cvParticleStateConfig imW imH std).boundM 2 2 = 0) ∧
    ((cvParticleStateConfig imW imH std).boundM 3 0 = 1 ∧
      (cvParticleStateConfig imW imH std).boundM 3 1 = (imH : ℚ) ∧
      (cvParticleStateConfig imW imH std).boundM 3 2 = 0) ∧
    ((cvParticleStateConfig imW imH std).boundM 4 0 = 0 ∧
      (cvParticleStateConfig imW imH std).boundM 4 1 = 360 ∧
      (cvParticleStateConfig imW imH std).boundM 4 2 = 1) ∧
    ((cvParticleStateConfig imW imH std).boundM 0 0 ≠
        (cvParticleStateConfig imW imH std).boundM 0 1 ∧
      (cvParticleStateConfig imW imH std).boundM 1 0 ≠
        (cvParticleStateConfig imW imH std).boundM 1 1 ∧
      (cvParticleStateConfig imW imH std).boundM 2 0 ≠
        (cvParticleStateConfig imW imH std).boundM 2 1 ∧
      (cvParticleStateConfig imW imH std).boundM 3 0 ≠
        (cvParticleStateConfig imW imH std).boundM 3 1 ∧
      (cvParticleStateConfig imW imH std).boundM 4 0 ≠
        (cvParticleStateConfig imW imH std).boundM 4 1) := by
  have hW' : (imW - 1 : ℤ) ≠ 0 := by omega
  have hH' : (imH - 1 : ℤ) ≠ 0 := by omega
  have hW2 : (imW : ℤ) ≠ 1 := by omega
  have hH2 : (imH : ℤ) ≠ 1 := by omega
  refine ⟨⟨rfl, rfl, rfl⟩, ⟨rfl, rfl, rfl⟩, ⟨rfl, rfl, rfl⟩, ⟨rfl, rfl, rfl⟩,
    ⟨rfl, rfl, rfl⟩, ?_, ?_, ?_, ?_, ?_⟩
  · show (0 : ℚ) ≠ ((imW - 1 : ℤ) : ℚ)
    exact fun hcon => hW' (by exact_mod_cast hcon.symm)
  · show (0 : ℚ) ≠ ((imH - 1 : ℤ) : ℚ)
    exact fun hcon => hH' (by exact_mod_cast hcon.symm)
  · show (1 : ℚ) ≠ (imW : ℚ)
    exact fun hcon => hW2 (by exact_mod_cast hcon.symm)
  · show (1 : ℚ) ≠ (imH : ℚ)
    exact fun hcon => hH2 (by exact_mod_cast hcon.symm)
  · show (0 : ℚ) ≠ 360
    norm_num

/-- Closed witness for `config_bound_table` at image size 10 × 10: every
dimension's bound is active. -/
theorem config_bound_table_witness :
    (cvParticleStateConfig 10 10 ⟨1, 1, 1, 1, 1⟩).boundM 0 0 ≠
        (cvParticleStateConfig 10 10 ⟨1, 1, 1, 1, 1⟩).boundM 0 1 ∧
      (cvParticleStateConfig 10 10 ⟨1, 1, 1, 1, 1⟩).boundM 1 0 ≠
        (cvParticleStateConfig 10 10 ⟨1, 1, 1, 1, 1⟩).boundM 1 1 ∧
      (cvParticleStateConfig 10 10 ⟨1, 1, 1, 1, 1⟩).boundM 2 0 ≠
        (cvParticleStateConfig 10 10 ⟨1, 1, 1, 1, 1⟩).boundM 2 1 ∧
      (cvParticleStateConfig 10 10 ⟨1, 1, 1, 1, 1⟩).boundM 3 0 ≠
        (cvParticleStateConfig 10 10 ⟨1, 1, 1, 1, 1⟩).boundM 3 1 ∧
      (cvParticleStateConfig 10 10 ⟨1, 1, 1, 1, 1⟩).boundM 4 0 ≠
        (cvParticleStateConfig 10 10 ⟨1, 1, 1, 1, 1⟩).boundM 4 1 :=
  (config_bound_table 10 10 ⟨1, 1, 1, 1, 1⟩ (by norm_num)
    (by norm_num)).2.2.2.2.2

/-- One iteration body of the `cvParticleStateAdditionalBound` loop for
particle `np`: read x, y, width, height from column `np`, then write
`min(width, imW − x)` to row 2 and `min(height, imH − y)` to row 3. -/
def additionalBoundBody (imW imH : ℤ) (m : ℕ → ℕ → ℚ) (np : ℕ) :
    ℕ → ℕ → ℚ :=
  let x := cvmGet m 0 np
  let y := cvmGet m 1 np
  let width := cvmGet m 2 np
  let height := cvmGet m 3 np
  cvmSet (cvmSet m 2 np (min width ((imW : ℚ) - x)))
    3 np (min height ((imH : ℚ) - y))

/-- The `for np = 0 .. n-1` loop of `cvParticleStateAdditionalBound`,
iterating the body over the matrix state. -/
def additionalBoundLoop (imW imH : ℤ) (m : ℕ → ℕ → ℚ) : ℕ → (ℕ → ℕ → ℚ)
  | 0 => m
  | n + 1 => additionalBoundBody imW imH (additionalBoundLoop imW imH m n) n

/-- `cvParticleStateAdditionalBound` from `cvparticlestaterect.h`: the
supplementary post-propagation bound pass over all particles. -/
def cvParticleStateAdditionalBound (p : CvParticle) (imW imH : ℤ) :
    CvParticle :=
  { p with particles := additionalBoundLoop imW imH p.particles p.num_particles }

theorem additionalBoundLoop_apply (imW imH : ℤ) (m : ℕ → ℕ → ℚ) :
    ∀ n r c, additionalBoundLoop imW imH m n r c =
      if c < n ∧ r = 2 then min (m 2 c) ((imW : ℚ) - m 0 c)
      else if c < n ∧ r = 3 then min (m 3 c) ((imH : ℚ) - m 1 c)
      else m r c := by
  intro n
  induction n with
  | zero => intro r c; simp [additionalBoundLoop]
  | succ n ih =>
    intro r c
    have h0 : additionalBoundLoop imW imH m n 0 n = m 0 n := by simp [ih]
    have h1 : additionalBoundLoop imW imH m n 1 n = m 1 n := by simp [ih]
    have h2 : additionalBoundLoop imW imH m n 2 n = m 2 n := by simp [ih]
    have h3 : additionalBoundLoop imW imH m n 3 n = m 3 n := by simp [ih]
    show additionalBoundBody imW imH (additionalBoundLoop imW imH m n) n r c = _
    simp only [additionalBoundBody, cvmSet, cvmGet, h0, h1, h2, h3]
    rw [ih r c]
    by_cases hcn : c = n
    · subst hcn
      by_cases hr2 : r = 2
      · subst hr2; simp
      · by_cases hr3 : r = 3
        · subst hr3; simp
        · simp [hr2, hr3]
    · have hcc : (c < n + 1) = (c < n) := by
        simp only [eq_iff_iff]; omega
      simp [hcn, hcc]

/-- C3: for every particle index `np` below the particle count, the
supplementary bound pass sets that particle's width to
`min(width, imageWidth − x)` and its height to
`min(height, imageHeight − y)`, where x and y are the particle's current
(already-updated) first two state entries. -/
theorem additionalBound_clamps (p : CvParticle) (imW imH : ℤ) (np : ℕ)
    (h : np < p.num_particles) :
    (cvParticleStateAdditionalBound p imW imH).particles 2 np =
        min (p.particles 2 np) ((imW : ℚ) - p.particles 0 np) ∧
      (cvParticleStateAdditionalBound p imW imH).particles 3 np =
        min (p.particles 3 np) ((imH : ℚ) - p.particles 1 np) := by
  constructor <;>
    · simp only [cvParticleStateAdditionalBound, additionalBoundLoop_apply]
      simp [h]

/-- Closed witness for `additionalBound_clamps`: one particle with x = 90,
y = 0, width = 50, height = 20 in a 100 × 100 image ends with width 10. -/
theorem additionalBound_clamps_witness :
    (cvParticleStateAdditionalBound
        ⟨1, fun r _ => if r = 0 then 90 else if r = 2 then 50
            else if r = 3 then 20 else 0, fun _ _ => 0⟩
        100 100).particles 2 0 = 10 := by
  have h := additionalBound_clamps
    ⟨1, fun r _ => if r = 0 then 90 else if r = 2 then 50
        else if r = 3 then 20 else 0, fun _ _ => 0⟩
    100 100 0 (by norm_num)
  rw [h.1]
  norm_num

/-- C10: the supplementary bound pass is idempotent — running it twice
with the same image size yields exactly the same state matrix as running
it once (x and y are untouched, and the clamped width/height already
satisfy the clamp). -/
theorem additionalBound_idempotent (p : CvParticle) (imW imH : ℤ) :
    (cvParticleStateAdditionalBound
        (cvParticleStateAdditionalBound p imW imH) imW imH).particles =
      (cvParticleStateAdditionalBound p imW imH).particles := by
  funext r c
  show additionalBoundLoop imW imH
      (additionalBoundLoop imW imH p.particles p.num_particles)
      p.num_particles r c
    = additionalBoundLoop imW imH p.particles p.num_particles r c
  simp only [additionalBoundLoop_apply]
  by_cases hc : c < p.num_particles
  · by_cases hr2 : r = 2
    · subst hr2
      simp only [hc, true_and, if_pos, show (2 : ℕ) ≠ 3 by omega]
      simp [min_assoc]
    · by_cases hr3 : r = 3
      · subst hr3
        simp [hc, min_assoc]
      · simp [hc, hr2, hr3]
  · simp [hc]

/-- Global model-file configuration from `cvparticleobservepcadiffs.h`. -/
def data_dir : String := ""

/-- Eigenvalue file name. -/
def data_pcaval : String := "pcaval.xml"

/-- Eigenvector file name. -/
def data_pcavec : String := "pcavec.xml"

/-- Mean (average) file name. -/
def data_pcaavg : String := "pcaavg.xml"

/-- `cvParticleObserveInitialize` from `cvparticleobservepcadiffs.h`.
`cvLoad` is the external persisted-model loader, abstracted as `load`
(returning `none` for a missing or unparsable file, the NULL return of
`cvLoad`); `exit(1)` is embedded as `Except.error` carrying the failing
filename, and a normal return as `Except.ok` carrying the three loaded
matrices (eigenvalues, eigenvectors, mean) in the order the globals are
populated. -/
def cvParticleObserveInitialize {M : Type} (load : String → Option M) :
    Except String (M × M × M) :=
  match load (data_dir ++ data_pcaval) with
  | none => Except.error (data_dir ++ data_pcaval)
  | some eigenvalues =>
    match load (data_dir ++ data_pcavec) with
    | none => Except.error (data_dir ++ data_pcavec)
    | some eigenvectors =>
      match load (data_dir ++ data_pcaavg) with
      | none => Except.error (data_dir ++ data_pcaavg)
      | some eigenavg => Except.ok (eigenvalues, eigenvectors, eigenavg)

/-- C6: initialization terminates the process (returns no value) exactly
when at least one of the three PCA model files fails to load, and when
all three load it returns normally with the three loaded model matrices
populated in order (eigenvalues, eigenvectors, mean). -/
theorem observeInitialize_fatal_iff {M : Type} (load : String → Option M) :
    ((∃ e, cvParticleObserveInitialize load = Except.error e) ↔
      (load (data_dir ++ data_pcaval) = none ∨
        load (data_dir ++ data_pcavec) = none ∨
        load (data_dir ++ data_pcaavg) = none)) ∧
    (∀ v w a : M, load (data_dir ++ data_pcaval) = some v →
      load (data_dir ++ data_pcavec) = some w →
      load (data_dir ++ data_pcaavg) = some a →
      cvParticleObserveInitialize load = Except.ok (v, w, a)) := by
  constructor
  · constructor
    · intro ⟨e, he⟩
      by_contra hcon
      push_neg at hcon
      obtain ⟨h1, h2, h3⟩ := hcon
      obtain ⟨v, hv⟩ := Option.ne_none_iff_exists'.mp h1
      obtain ⟨w, hw⟩ := Option.ne_none_iff_exists'.mp h2
      obtain ⟨a, ha⟩ := Option.ne_none_iff_exists'.mp h3
      simp [cvParticleObserveInitialize, hv, hw, ha] at he
    · intro h
      unfold cvParticleObserveInitialize
      rcases hv : load (data_dir ++ data_pcaval) with _ | v
      · exact ⟨data_dir ++ data_pcaval, rfl⟩
      rcases hw : load (data_dir ++ data_pcavec) with _ | w
      · exact ⟨data_dir ++ data_pcavec, rfl⟩
      rcases ha : load (data_dir ++ data_pcaavg) with _ | a
      · exact ⟨data_dir ++ data_pcaavg, rfl⟩
      · exfalso
        rcases h with h | h | h <;> simp_all
  · intro v w a hv hw ha
    simp [cvParticleObserveInitialize, hv, hw, ha]

/-- Closed witness for `observeInitialize_fatal_iff`: a loader that finds
all three files yields a normal return carrying them. -/
theorem observeInitialize_fatal_iff_witness :
    cvParticleObserveInitialize (fun _ => some (0 : ℕ)) =
      Except.ok (0, 0, 0) :=
  (observeInitialize_fatal_iff (fun _ => some (0 : ℕ))).2 0 0 0 rfl rfl rfl

/-- `cvNorm(a, b, CV_L2)`: the pixel-wise L2 norm of the difference of
two buffers of `D` pixels (an external image collaborator; its
mathematical contract is the Euclidean norm of the difference). -/
noncomputable def cvNormL2 (D : ℕ) (a b : ℕ → ℚ) : ℝ :=
  Real.sqrt (∑ k ∈ Finset.range D, (((a k : ℝ) - (b k : ℝ)) ^ 2))

/-- The `for i = 0 .. n-1` loop of the template-variant
`cvParticleObserveLikelihood`: the crop + resize collaborator chain for
particle `i` is abstracted as `resized i` (particle `i`'s patch resized
to the feature size, as a `D`-pixel buffer); each iteration writes
`likeli = -cvNorm(resize, reference, CV_L2)` into `probs` at row 0,
column `i`. -/
noncomputable def observeLoopT (D : ℕ) (resized : ℕ → ℕ → ℚ)
    (reference : ℕ → ℚ) : ℕ → (ℕ → ℕ → ℝ) → (ℕ → ℕ → ℝ)
  | 0, probs => probs
  | i + 1, probs =>
      cvmSet (observeLoopT D resized reference i probs) 0 i
        (-(cvNormL2 D (resized i) reference))

/-- The template-matching `cvParticleObserveLikelihood`
(the second observation header): score every particle against the
caller-supplied reference patch, writing one log-likelihood per particle
into the ensemble's `probs` vector. -/
noncomputable def cvParticleObserveLikelihoodTemplate (D : ℕ)
    (resized : ℕ → ℕ → ℚ) (reference : ℕ → ℚ) (p : CvParticle) :
    CvParticle :=
  { p with probs := observeLoopT D resized reference p.num_particles p.probs }

theorem observeLoopT_apply (D : ℕ) (resized : ℕ → ℕ → ℚ)
    (reference : ℕ → ℚ) (probs : ℕ → ℕ → ℝ) :
    ∀ n r c, observeLoopT D resized reference n probs r c =
      if r = 0 ∧ c < n then -(cvNormL2 D (resized c) reference)
      else probs r c := by
  intro n
  induction n with
  | zero => intro r c; simp [observeLoopT]
  | succ n ih =>
    intro r c
    show cvmSet (observeLoopT D resized reference n probs) 0 n _ r c = _
    simp only [cvmSet, ih r c]
    by_cases hr : r = 0
    · subst hr
      by_cases hcn : c = n
      · subst hcn; simp
      · have hcc : (c < n + 1) = (c < n) := by
          simp only [eq_iff_iff]; omega
        simp [hcn, hcc]
    · simp [hr]

/-- C7: in the template model the log-likelihood written for particle `i`
is exactly the negative L2 norm of the pixel-wise difference between the
particle's resized patch and the reference; a patch identical to the
reference scores 0 and a patch differing in at least one pixel scores
strictly below 0. -/
theorem template_likelihood_spec (D : ℕ) (resized : ℕ → ℕ → ℚ)
    (reference : ℕ → ℚ) (p : CvParticle) (i : ℕ)
    (h : i < p.num_particles) :
    (cvParticleObserveLikelihoodTemplate D resized reference p).probs 0 i =
        -(cvNormL2 D (resized i) reference) ∧
      ((∀ k, k < D → resized i k = reference k) →
        (cvParticleObserveLikelihoodTemplate D resized reference p).probs 0 i
          = 0) ∧
      (∀ k, k < D → resized i k ≠ reference k →
        (cvParticleObserveLikelihoodTemplate D resized reference p).probs 0 i
          < 0) := by
  have hbase :
      (cvParticleObserveLikelihoodTemplate D resized reference p).probs 0 i =
        -(cvNormL2 D (resized i) reference) := by
    show observeLoopT D resized reference p.num_particles p.probs 0 i = _
    rw [observeLoopT_apply]
    simp [h]
  refine ⟨hbase, ?_, ?_⟩
  · intro hsame
    rw [hbase]
    have hz : cvNormL2 D (resized i) reference = 0 := by
      unfold cvNormL2
      rw [Finset.sum_eq_zero, Real.sqrt_zero]
      intro k hk
      rw [Finset.mem_range] at hk
      rw [hsame k hk]
      ring
    rw [hz, neg_zero]
  · intro k hk hne
    rw [hbase]
    have hpos : 0 < cvNormL2 D (resized i) reference := by
      unfold cvNormL2
      apply Real.sqrt_pos.mpr
      apply Finset.sum_pos'
      · intro j _
        positivity
      · refine ⟨k, Finset.mem_range.mpr hk, ?_⟩
        have hq : ((resized i k : ℝ)) - (reference k : ℝ) ≠ 0 := by
          intro hcon
          apply hne
          have : (resized i k : ℝ) = (reference k : ℝ) := by linarith
          exact_mod_cast this
        positivity
    linarith

/-- Closed witness for `template_likelihood_spec`: a one-pixel patch of
value 0 against a reference of value 1 receives a strictly negative
log-likelihood. -/
theorem template_likelihood_spec_witness :
    (cvParticleObserveLikelihoodTemplate 1 (fun _ _ => 0) (fun _ => 1)
        ⟨1, fun _ _ => 0, fun _ _ => 0⟩).probs 0 0 < 0 :=
  (template_likelihood_spec 1 (fun _ _ => 0) (fun _ => 1)
      ⟨1, fun _ _ => 0, fun _ _ => 0⟩ 0 Nat.one_pos).2.2
    0 Nat.one_pos (by norm_num)

/-- C9: template-model scoring writes exactly the entries `(0, i)` for
`i < num_particles` of the log-likelihood vector (disjoint indices per
particle), leaves every other `probs` entry untouched, and leaves the
ensemble's state matrix and particle count unchanged. -/
theorem template_observe_frame (D : ℕ) (resized : ℕ → ℕ → ℚ)
    (reference : ℕ → ℚ) (p : CvParticle) :
    (cvParticleObserveLikelihoodTemplate D resized reference p).particles =
        p.particles ∧
      (cvParticleObserveLikelihoodTemplate D resized reference
          p).num_particles = p.num_particles ∧
      (∀ r c, r ≠ 0 ∨ p.num_particles ≤ c →
        (cvParticleObserveLikelihoodTemplate D resized reference p).probs r c
          = p.probs r c) ∧
      (∀ i, i < p.num_particles →
        (cvParticleObserveLikelihoodTemplate D resized reference p).probs 0 i
          = -(cvNormL2 D (resized i) reference)) := by
  refine ⟨rfl, rfl, ?_, ?_⟩
  · intro r c hrc
    show observeLoopT D resized reference p.num_particles p.probs r c = _
    rw [observeLoopT_apply]
    rcases hrc with hr | hc
    · simp [hr]
    · have : ¬ (c < p.num_particles) := by omega
      simp [this]
  · intro i hi
    show observeLoopT D resized reference p.num_particles p.probs 0 i = _
    rw [observeLoopT_apply]
    simp [hi]

/-- Closed witness for `template_observe_frame`: on a concrete one-particle
ensemble the state matrix is unchanged and the out-of-range `probs` entry
at row 1 is untouched. -/
theorem template_observe_frame_witness :
    (cvParticleObserveLikelihoodTemplate 1 (fun _ _ => 0) (fun _ => 1)
        ⟨1, fun _ _ => 7, fun _ _ => 5⟩).particles =
      (⟨1, fun _ _ => 7, fun _ _ => 5⟩ : CvParticle).particles ∧
    (cvParticleObserveLikelihoodTemplate 1 (fun _ _ => 0) (fun _ => 1)
        ⟨1, fun _ _ => 7, fun _ _ => 5⟩).probs 1 0 =
      (⟨1, fun _ _ => 7, fun _ _ => 5⟩ : CvParticle).probs 1 0 :=
  ⟨(template_observe_frame 1 (fun _ _ => 0) (fun _ => 1)
      ⟨1, fun _ _ => 7, fun _ _ => 5⟩).1,
    (template_observe_frame 1 (fun _ _ => 0) (fun _ => 1)
        ⟨1, fun _ _ => 7, fun _ _ => 5⟩).2.2.1 1 0 (Or.inl (by norm_num))⟩

/-- A 2-D point (`CvPoint2D32f`); also used for the shear 2-vector. -/
@[ext]
structure CvPoint2D32f where
  x : ℚ
  y : ℚ
deriving DecidableEq

/-- `CvRect32f {x, y, width, height, angle}`: an axis-unaligned rectangle,
`angle` in degrees, rotating about its own top-left-relative origin
before translation.  Angles stay symbolic: the trigonometric collaborator
is abstracted as the pair of functions `cosd`, `sind` (cosine and sine on
degrees), keeping the embedding exact over ℚ. -/
structure CvRect32f where
  x : ℚ
  y : ℚ
  width : ℚ
  height : ℚ
  angle : ℚ

/-- `CvBox32f {cx, cy, width, height, angle}`: the center-based form. -/
structure CvBox32f where
  cx : ℚ
  cy : ℚ
  width : ℚ
  height : ℚ
  angle : ℚ

/-- The rotation `R(angle)` applied to a vector, with
`c = cosd angle`, `s = sind angle`: `(c·u − s·v, s·u + c·v)`. -/
def rotate (c s u v : ℚ) : ℚ × ℚ := (c * u - s * v, s * u + c * v)

/-- Modelled from the spec (`cvrect32f.h` is not under `src/`):
`cvBox2DFromRect32f`, the conversion of a rectangle to its center-based
box form.  The rectangle rotates about its top-left origin, so the
center is the top-left corner plus `R(angle)·(width/2, height/2)`;
width, height and angle carry over. -/
def cvBox2DFromRect32f (cosd sind : ℚ → ℚ) (r : CvRect32f) : CvBox32f :=
  { cx := r.x + (rotate (cosd r.angle) (sind r.angle)
      (r.width / 2) (r.height / 2)).1
    cy := r.y + (rotate (cosd r.angle) (sind r.angle)
      (r.width / 2) (r.height / 2)).2
    width := r.width
    height := r.height
    angle := r.angle }

/-- Modelled from the spec (OpenCV's `cvBoxPoints` is an external
collaborator): the four corners of the rotated box, computed closed-form
as `center + R(angle)·((u − 1/2)·width, (v − 1/2)·height)` for the
unit-square corners `(u,v) ∈ [(0,0),(1,0),(1,1),(0,1)]` (traversal order
top-left, top-right, bottom-right, bottom-left of the rectangle's unit
square). -/
def cvBoxPoints (cosd sind : ℚ → ℚ) (b : CvBox32f) : List CvPoint2D32f :=
  let corner := fun (u v : ℚ) =>
    CvPoint2D32f.mk
      (b.cx + (rotate (cosd b.angle) (sind b.angle)
        ((u - 1/2) * b.width) ((v - 1/2) * b.height)).1)
      (b.cy + (rotate (cosd b.angle) (sind b.angle)
        ((u - 1/2) * b.width) ((v - 1/2) * b.height)).2)
  [corner 0 0, corner 1 0, corner 1 1, corner 0 1]

/-- A 2 × 3 affine matrix (`CvMat` of `CV_32FC1` in the source). -/
structure CvMat23 where
  a00 : ℚ
  a01 : ℚ
  a02 : ℚ
  a10 : ℚ
  a11 : ℚ
  a12 : ℚ

/-- Modelled from the spec (`cvcreateaffine.h` is not under `src/`):
`cvCreateAffine` builds the full 2 × 3 affine matrix that maps the unit
square to the rectangle's corners including shear — the composition
`Translate(x, y) · R(angle) · Scale(width, height) · Shear(shear.x,
shear.y)` with `Shear(sx, sy)·(u, v) = (u + sx·v, sy·u + v)`. -/
def cvCreateAffine (cosd sind : ℚ → ℚ) (r : CvRect32f)
    (shear : CvPoint2D32f) : CvMat23 :=
  let c := cosd r.angle
  let s := sind r.angle
  { a00 := c * r.width - s * r.height * shear.y
    a01 := c * r.width * shear.x - s * r.height
    a02 := r.x
    a10 := s * r.width + c * r.height * shear.y
    a11 := s * r.width * shear.x + c * r.height
    a12 := r.y }

/-- One matrix–vector product of the affine loop in `cvRect32fPoints`:
`tmp.x = A00·x + A01·y + A02`, `tmp.y = A10·x + A11·y + A12`. -/
def cvAffineApply (A : CvMat23) (p : CvPoint2D32f) : CvPoint2D32f :=
  ⟨A.a00 * p.x + A.a01 * p.y + A.a02, A.a10 * p.x + A.a11 * p.y + A.a12⟩

/-- The general affine branch of `cvRect32fPoints` (the `else` path):
build the affine matrix and push the four unit-square corners
`(0,0), (1,0), (1,1), (0,1)` through it, in that order.  Split out as its
own function so it can also be evaluated at shear `{0,0}`. -/
def affinePathPoints (cosd sind : ℚ → ℚ) (rect : CvRect32f)
    (shear : CvPoint2D32f) : List CvPoint2D32f :=
  let A := cvCreateAffine cosd sind rect shear
  [cvAffineApply A ⟨0, 0⟩, cvAffineApply A ⟨1, 0⟩,
   cvAffineApply A ⟨1, 1⟩, cvAffineApply A ⟨0, 1⟩]

/-- `cvRect32fPoints` from `cvrectpoints.h`: the fast rotated-box path
when the shear is `{0,0}`, the general affine path otherwise. -/
def cvRect32fPoints (cosd sind : ℚ → ℚ) (rect : CvRect32f)
    (shear : CvPoint2D32f) : List CvPoint2D32f :=
  if shear.x = 0 ∧ shear.y = 0 then
    cvBoxPoints cosd sind (cvBox2DFromRect32f cosd sind rect)
  else
    affinePathPoints cosd sind rect shear

/-- C1: for every rectangle and every angle (symbolic cosine/sine), the
fast rotated-box path taken by `cvRect32fPoints` at shear `{0,0}`
produces exactly the same ordered corner list as the general affine path
evaluated at shear `{0,0}`, and both emit the corners in the traversal
order top-left, top-right, bottom-right, bottom-left of the rectangle's
unit square: corner(u, v) = (x, y) + R(angle)·(u·width, v·height). -/
theorem rect32fPoints_fast_eq_affine (cosd sind : ℚ → ℚ)
    (rect : CvRect32f) :
    cvRect32fPoints cosd sind rect ⟨0, 0⟩ =
        affinePathPoints cosd sind rect ⟨0, 0⟩ ∧
      cvRect32fPoints cosd sind rect ⟨0, 0⟩ =
        [⟨rect.x, rect.y⟩,
         ⟨rect.x + cosd rect.angle * rect.width,
          rect.y + sind rect.angle * rect.width⟩,
         ⟨rect.x + cosd rect.angle * rect.width
            - sind rect.angle * rect.height,
          rect.y + sind rect.angle * rect.width
            + cosd rect.angle * rect.height⟩,
         ⟨rect.x - sind rect.angle * rect.height,
          rect.y + cosd rect.angle * rect.height⟩] := by
  have hfast : cvRect32fPoints cosd sind rect ⟨0, 0⟩ =
      cvBoxPoints cosd sind (cvBox2DFromRect32f cosd sind rect) := by
    unfold cvRect32fPoints
    rw [if_pos ⟨rfl, rfl⟩]
  have hexp : cvBoxPoints cosd sind (cvBox2DFromRect32f cosd sind rect) =
      [⟨rect.x, rect.y⟩,
       ⟨rect.x + cosd rect.angle * rect.width,
        rect.y + sind rect.angle * rect.width⟩,
       ⟨rect.x + cosd rect.angle * rect.width
          - sind rect.angle * rect.height,
        rect.y + sind rect.angle * rect.width
          + cosd rect.angle * rect.height⟩,
       ⟨rect.x - sind rect.angle * rect.height,
        rect.y + cosd rect.angle * rect.height⟩] := by
    simp only [cvBoxPoints, cvBox2DFromRect32f, rotate, List.cons.injEq,
      and_true, CvPoint2D32f.mk.injEq]
    refine ⟨⟨?_, ?_⟩, ⟨?_, ?_⟩, ⟨?_, ?_⟩, ?_, ?_⟩ <;> ring
  have haff : affinePathPoints cosd sind rect ⟨0, 0⟩ =
      [⟨rect.x, rect.y⟩,
       ⟨rect.x + cosd rect.angle * rect.width,
        rect.y + sind rect.angle * rect.width⟩,
       ⟨rect.x + cosd rect.angle * rect.width
          - sind rect.angle * rect.height,
        rect.y + sind rect.angle * rect.width
          + cosd rect.angle * rect.height⟩,
       ⟨rect.x - sind rect.angle * rect.height,
        rect.y + cosd rect.angle * rect.height⟩] := by
    simp only [affinePathPoints, cvCreateAffine, cvAffineApply,
      List.cons.injEq, and_true, CvPoint2D32f.mk.injEq]
    refine ⟨⟨?_, ?_⟩, ⟨?_, ?_⟩, ⟨?_, ?_⟩, ?_, ?_⟩ <;> ring
  exact ⟨by rw [hfast, hexp, haff], by rw [hfast, hexp]⟩

/-- An image buffer (`IplImage`, single channel after grayscale
conversion): `pix r c` is the pixel at row `r`, column `c`; an image of
width `w` and height `h` has `h` rows and `w` columns. -/
structure IplImage where
  width : ℕ
  height : ℕ
  pix : ℕ → ℕ → ℚ

/-- A `CvMat` of doubles with explicit dimensions. -/
structure CvMatD where
  rows : ℕ
  cols : ℕ
  entry : ℕ → ℕ → ℚ

/-- Modelled from the spec: the external image-resize collaborator
("resize-to-size"): produces an image of exactly the requested width and
height, sampling the source nearest-neighbour. -/
def cvResizeModel (img : IplImage) (w h : ℕ) : IplImage :=
  ⟨w, h, fun r c => img.pix (r * img.height / h) (c * img.width / w)⟩

/-- The resize target created inside `icvPreprocess`:
`cvCreateImage(cvSize(mat->rows, mat->cols), depth, 1)` followed by
`cvResize` — `cvSize` takes `(width, height)`, so the target image gets
width `mat->rows` and height `mat->cols`, where the destination matrix
`normed` was created as `cvCreateMat(feature_height, feature_width)`.
The resize collaborator is abstracted as `resizeF`. -/
def icvPreprocessResized (resizeF : IplImage → ℕ → ℕ → IplImage)
    (patch : IplImage) (matRows matCols : ℕ) : IplImage :=
  resizeF patch matRows matCols

/-- `cvConvert(resize, mat)`: copy the image's pixel grid into a
`rows × cols` matrix. -/
def cvConvertToMat (img : IplImage) (rows cols : ℕ) : CvMatD :=
  ⟨rows, cols, fun r c => img.pix r c⟩

/-- Sum of all entries of a matrix. -/
def matSum (m : CvMatD) : ℚ :=
  ∑ r ∈ Finset.range m.rows, ∑ c ∈ Finset.range m.cols, m.entry r c

/-- Mean of all entries of a matrix. -/
def matMean (m : CvMatD) : ℚ := matSum m / ((m.rows : ℚ) * (m.cols : ℚ))

/-- Modelled from the spec (`cvgaussnorm.h` is not under `src/`):
`cvImgGaussNorm` normalizes pixel intensities to zero mean and unit
scale over the patch: each entry becomes `(p − mean) / sd`.  The
standard deviation is kept as the abstract parameter `sd`, constrained
in the theorems by `sd² · N = Σ (p − mean)²`. -/
def cvImgGaussNorm (sd : ℚ) (m : CvMatD) : CvMatD :=
  ⟨m.rows, m.cols, fun r c => (m.entry r c - matMean m) / sd⟩

/-- `icvPreprocess` from `cvparticleobservepcadiffs.h`: grayscale
conversion (the patch is already single-channel here), resize to the
target created with `cvSize(mat->rows, mat->cols)`, convert into the
`matRows × matCols` matrix, then Gauss-normalize. -/
def icvPreprocess (resizeF : IplImage → ℕ → ℕ → IplImage) (sd : ℚ)
    (patch : IplImage) (matRows matCols : ℕ) : CvMatD :=
  cvImgGaussNorm sd
    (cvConvertToMat (icvPreprocessResized resizeF patch matRows matCols)
      matRows matCols)

/-- `cvT`: matrix transpose. -/
def cvT (m : CvMatD) : CvMatD := ⟨m.cols, m.rows, fun r c => m.entry c r⟩

/-- `cvReshape(·, hdr, 1, rows·cols)` viewed as the single column it
produces: element `k` of the row-major flattening. -/
def cvReshapeToCol (m : CvMatD) : ℕ → ℚ :=
  fun k => m.entry (k / m.cols) (k % m.cols)

/-- `cvSetCol(src, dst, n)`: overwrite column `n` of `dst` with `src`. -/
def cvSetCol (src : ℕ → ℚ) (dst : ℕ → ℕ → ℚ) (n : ℕ) : ℕ → ℕ → ℚ :=
  fun r c => if c = n then src r else dst r c

/-- The `for n = 0 .. num_particles-1` loop of `icvGetFeatures`:
`featOf n` is particle `n`'s vectorized feature column, written into
column `n` of the feature matrix. -/
def icvGetFeaturesLoop (featOf : ℕ → ℕ → ℚ) :
    ℕ → (ℕ → ℕ → ℚ) → (ℕ → ℕ → ℚ)
  | 0, fs => fs
  | n + 1, fs => cvSetCol (featOf n) (icvGetFeaturesLoop featOf n fs) n

/-- `icvGetFeatures` from `cvparticleobservepcadiffs.h`: per particle,
crop the oriented patch (the state → box → rect → crop collaborator
chain is abstracted as `patchOf`), preprocess it (`icvPreprocess`, with
per-particle standard deviation `sdOf`), transpose, reshape to a single
column of length `matRows · matCols` and write it into column `n` of the
feature matrix. -/
def icvGetFeatures (resizeF : IplImage → ℕ → ℕ → IplImage) (sdOf : ℕ → ℚ)
    (patchOf : ℕ → IplImage) (matRows matCols numP : ℕ)
    (features : ℕ → ℕ → ℚ) : ℕ → ℕ → ℚ :=
  icvGetFeaturesLoop
    (fun n => cvReshapeToCol (cvT (icvPreprocess resizeF (sdOf n)
      (patchOf n) matRows matCols)))
    numP features

theorem icvGetFeaturesLoop_apply (featOf : ℕ → ℕ → ℚ)
    (features : ℕ → ℕ → ℚ) :
    ∀ n r c, icvGetFeaturesLoop featOf n features r c =
      if c < n then featOf c r else features r c := by
  intro n
  induction n with
  | zero => intro r c; simp [icvGetFeaturesLoop]
  | succ n ih =>
    intro r c
    show cvSetCol (featOf n) (icvGetFeaturesLoop featOf n features) n r c = _
    simp only [cvSetCol, ih r c]
    by_cases hcn : c = n
    · subst hcn; simp
    · have hcc : (c < n + 1) = (c < n) := by
        simp only [eq_iff_iff]; omega
      simp [hcn, hcc]

theorem gaussNorm_matSum_zero (sd : ℚ) (m : CvMatD)
    (hN : ((m.rows : ℚ) * (m.cols : ℚ)) ≠ 0) :
    matSum (cvImgGaussNorm sd m) = 0 := by
  unfold matSum cvImgGaussNorm
  simp only [div_eq_mul_inv, sub_mul]
  rw [Finset.sum_congr rfl (fun r _ => Finset.sum_sub_distrib),
    Finset.sum_sub_distrib]
  simp only [Finset.sum_const, Finset.card_range, nsmul_eq_mul,
    ← Finset.sum_mul]
  have hS : (∑ r ∈ Finset.range m.rows, ∑ c ∈ Finset.range m.cols,
      m.entry r c) = matSum m := rfl
  rw [hS]
  have hμ : (m.rows : ℚ) * ((m.cols : ℚ) * (matMean m * sd⁻¹)) =
      matSum m * sd⁻¹ := by
    unfold matMean
    have hstep : (m.rows : ℚ) * ((m.cols : ℚ) *
        (matSum m / ((m.rows : ℚ) * (m.cols : ℚ)) * sd⁻¹)) =
        ((m.rows : ℚ) * (m.cols : ℚ)) / ((m.rows : ℚ) * (m.cols : ℚ)) *
          matSum m * sd⁻¹ := by
      ring
    rw [hstep, div_self hN, one_mul]
  rw [hμ]
  ring

theorem gaussNorm_sumSq (sd : ℚ) (m : CvMatD) (hsd : sd ≠ 0)
    (hvar : sd ^ 2 * ((m.rows : ℚ) * (m.cols : ℚ)) =
      ∑ r ∈ Finset.range m.rows, ∑ c ∈ Finset.range m.cols,
        (m.entry r c - matMean m) ^ 2) :
    ∑ r ∈ Finset.range m.rows, ∑ c ∈ Finset.range m.cols,
      (cvImgGaussNorm sd m).entry r c ^ 2 =
      ((m.rows : ℚ) * (m.cols : ℚ)) := by
  simp only [cvImgGaussNorm, div_pow]
  rw [Finset.sum_congr rfl (fun r _ => (Finset.sum_div _ _ _).symm),
    ← Finset.sum_div, ← hvar]
  field_simp

/-- C8 (amended): per-particle feature extraction under the resize
collaborator contract (`hres`): the preprocessed patch is resized to an
image of width `feature_size.height` and height `feature_size.width`
(the size constructor receives `(mat->rows, mat->cols)`, swapping the
two; they coincide for the default square 24 × 24 feature size);
Gauss-normalization gives the patch zero mean, and unit scale whenever
the standard deviation satisfies its defining equation; the normalized
`matRows × matCols` patch is vectorized in column-major
(transpose-then-reshape) order into column `n` of the feature matrix,
one column per particle. -/
theorem getFeatures_column_spec (resizeF : IplImage → ℕ → ℕ → IplImage)
    (sdOf : ℕ → ℚ) (patchOf : ℕ → IplImage) (fh fw numP : ℕ)
    (features : ℕ → ℕ → ℚ) (n k : ℕ)
    (hres : ∀ img w h, (resizeF img w h).width = w ∧
      (resizeF img w h).height = h)
    (hn : n < numP) (hfh : 0 < fh) (hfw : 0 < fw) (hsd : sdOf n ≠ 0) :
    ((icvPreprocessResized resizeF (patchOf n) fh fw).width = fh ∧
      (icvPreprocessResized resizeF (patchOf n) fh fw).height = fw) ∧
    matSum (icvPreprocess resizeF (sdOf n) (patchOf n) fh fw) = 0 ∧
    ((sdOf n) ^ 2 * ((fh : ℚ) * (fw : ℚ)) =
        (∑ r ∈ Finset.range fh, ∑ c ∈ Finset.range fw,
          ((cvConvertToMat (icvPreprocessResized resizeF (patchOf n) fh fw)
              fh fw).entry r c -
            matMean (cvConvertToMat
              (icvPreprocessResized resizeF (patchOf n) fh fw) fh fw)) ^ 2) →
      (∑ r ∈ Finset.range fh, ∑ c ∈ Finset.range fw,
        (icvPreprocess resizeF (sdOf n) (patchOf n) fh fw).entry r c ^ 2) =
        ((fh : ℚ) * (fw : ℚ))) ∧
    icvGetFeatures resizeF sdOf patchOf fh fw numP features k n =
      (icvPreprocess resizeF (sdOf n) (patchOf n) fh fw).entry
        (k % fh) (k / fh) := by
  have hN : (((cvConvertToMat (icvPreprocessResized resizeF (patchOf n)
      fh fw) fh fw).rows : ℚ) *
      ((cvConvertToMat (icvPreprocessResized resizeF (patchOf n) fh fw)
        fh fw).cols : ℚ)) ≠ 0 := by
    show ((fh : ℚ) * (fw : ℚ)) ≠ 0
    positivity
  refine ⟨⟨(hres (patchOf n) fh fw).1, (hres (patchOf n) fh fw).2⟩,
    gaussNorm_matSum_zero (sdOf n) _ hN, ?_, ?_⟩
  · intro hvar
    exact gaussNorm_sumSq (sdOf n) _ hsd hvar
  · show icvGetFeaturesLoop _ numP features k n = _
    rw [icvGetFeaturesLoop_apply]
    simp [hn, cvReshapeToCol, cvT, icvPreprocess, cvImgGaussNorm,
      cvConvertToMat]

/-- C8 counterexample: with a configured feature size of width 2 and
height 3 (`normed = cvCreateMat(3, 2)`), the resize target created by
`icvPreprocess` under the resize-to-size collaborator has width 3 — the
feature height — not the feature width 2, so the patch is not resized to
`width = feature_size.width, height = feature_size.height`. -/
theorem preprocess_resize_swap_counterexample :
    (icvPreprocessResized cvResizeModel ⟨4, 4, fun _ _ => 0⟩ 3 2).width = 3 ∧
      ¬ ((icvPreprocessResized cvResizeModel ⟨4, 4, fun _ _ => 0⟩
        3 2).width = 2 ∧
        (icvPreprocessResized cvResizeModel ⟨4, 4, fun _ _ => 0⟩
          3 2).height = 3) := by
  constructor
  · rfl
  · intro hcon
    exact absurd hcon.1 (by norm_num [icvPreprocessResized, cvResizeModel])

/-- Closed witness for `getFeatures_column_spec`: a 3 × 1 patch with
pixel values 0, 0, 2 resized to a 1 × 2 feature grid has entries 0 and
2, mean 1 and standard deviation 1; after normalization the entries sum
to 0, their squares sum to 2 = feature area, and they land column-major
in column 0 of the feature matrix. -/
theorem getFeatures_column_spec_witness :
    ((icvPreprocessResized cvResizeModel
        ⟨3, 1, fun _ c => if c = 0 then 0 else 2⟩ 1 2).width = 1 ∧
      (icvPreprocessResized cvResizeModel
        ⟨3, 1, fun _ c => if c = 0 then 0 else 2⟩ 1 2).height = 2) ∧
    matSum (icvPreprocess cvResizeModel 1
      ⟨3, 1, fun _ c => if c = 0 then 0 else 2⟩ 1 2) = 0 ∧
    (∑ r ∈ Finset.range 1, ∑ c ∈ Finset.range 2,
      (icvPreprocess cvResizeModel 1
        ⟨3, 1, fun _ c => if c = 0 then 0 else 2⟩ 1 2).entry r c ^ 2) =
      ((1 : ℚ) * (2 : ℚ)) ∧
    icvGetFeatures cvResizeModel (fun _ => 1)
      (fun _ => ⟨3, 1, fun _ c => if c = 0 then 0 else 2⟩) 1 2 1
      (fun _ _ => 0) 1 0 =
      (icvPreprocess cvResizeModel 1
        ⟨3, 1, fun _ c => if c = 0 then 0 else 2⟩ 1 2).entry 0 1 := by
  have h := getFeatures_column_spec cvResizeModel (fun _ => 1)
    (fun _ => ⟨3, 1, fun _ c => if c = 0 then 0 else 2⟩) 1 2 1
    (fun _ _ => 0) 0 1
    (fun img w hh => ⟨rfl, rfl⟩) Nat.one_pos Nat.one_pos (by norm_num)
    (by norm_num)
  refine ⟨h.1, h.2.1, h.2.2.1 ?_, ?_⟩
  · show (1 : ℚ) ^ 2 * ((1 : ℚ) * (2 : ℚ)) = _
    norm_num [cvConvertToMat, icvPreprocessResized, cvResizeModel, matMean,
      matSum, Finset.sum_range_succ]
  · have hc := h.2.2.2
    simpa using hc

end ImageClipper
